import Mathlib

/-!
Verification development for the CPF/CNPJ PDF-redaction script `src/app.py`.

The script's core is a Python regular expression (`combined_pattern`, compiled
with `re.VERBOSE | re.IGNORECASE`) and a three-detector page pipeline.  We give
a shallow embedding:

* the regular expressions of lines 20-50 are embedded as an abstract-syntax
  tree `RE` over the exact character classes that occur in the source, together
  with a backtracking matcher `ends` that follows Python `re` semantics for the
  constructs used (ordered alternation, greedy `?` and `*` over a character
  class, fixed repetition of a character class, and the word-boundary assertion
  `\b`);
* texts are `List Char`; the character classes (`\d`, `\s`, `\w`) are modelled
  with their ASCII meaning, which coincides with Python's on ASCII input (the
  inputs the program is specified over);
* floating-point page coordinates are modelled as rationals, and `round(x, 1)`
  as rounding `10 * x` to the nearest integer (the claims under study do not
  depend on the tie-breaking rule);
* the PyMuPDF / EasyOCR engine calls are external collaborators: they appear as
  oracle fields of `PageOps`, and a call that may raise is a `PyResult`.
-/

namespace AnonPdf

/-- Python `\s` on ASCII text: the six ASCII whitespace characters. -/
def isPySpace (c : Char) : Bool :=
  c == ' ' || c == '\t' || c == '\n' || c == '\r' || c == '\x0b' || c == '\x0c'

/-- Python `\w` on ASCII text (used by the `\b` assertions of `cpf_regex`). -/
def isWordChar (c : Char) : Bool :=
  c.isAlpha || c.isDigit || c == '_'

/-- The character classes that occur in `cpf_regex` / `cnpj_regex`
(src/app.py lines 20-42).  `sepA` is `[\.\s-]`; `sepB` is whitespace,
forward slash or hyphen; `sepC` is `[\s-]`.
The letter classes are the case-insensitive literals of the
optional `CNPJ` tag (case-insensitivity comes from `re.IGNORECASE` at
line 49). -/
inductive CC where
  | digit | sepA | sepB | sepC | space | litC | litN | litP | litJ | colon
deriving DecidableEq

def CC.eval : CC → Char → Bool
  | .digit, c => c.isDigit
  | .sepA,  c => c == '.' || isPySpace c || c == '-'
  | .sepB,  c => isPySpace c || c == '/' || c == '-'
  | .sepC,  c => isPySpace c || c == '-'
  | .space, c => isPySpace c
  | .litC,  c => c == 'C' || c == 'c'
  | .litN,  c => c == 'N' || c == 'n'
  | .litP,  c => c == 'P' || c == 'p'
  | .litJ,  c => c == 'J' || c == 'j'
  | .colon, c => c == ':'

/-- Regular-expression syntax: exactly the constructs used by
`combined_pattern`.  `opt` is greedy `?`, `starCls` is greedy `*` over a single
character class, `rep k n` is `k{n}`, `wb` is `\b`. -/
inductive RE where
  | eps
  | cls (k : CC)
  | rep (k : CC) (n : Nat)
  | cat (a b : RE)
  | alt (a b : RE)
  | opt (a : RE)
  | starCls (k : CC)
  | wb

/-- Character of `s` at position `i` satisfies class `k`. -/
def clsAt (k : CC) (s : List Char) (i : Nat) : Bool :=
  (s[i]?.map (CC.eval k)).getD false

/-- The next `n` characters from position `i` all satisfy class `k`. -/
def repOk (k : CC) (s : List Char) (i n : Nat) : Bool :=
  (List.range n).all fun m => clsAt k s (i + m)

/-- Length of the maximal run of class-`k` characters at the head of a list. -/
def runLenAux (k : CC) : List Char → Nat
  | [] => 0
  | c :: t => if CC.eval k c then runLenAux k t + 1 else 0

/-- Length of the maximal run of class-`k` characters of `s` starting at `i`. -/
def runLen (k : CC) (s : List Char) (i : Nat) : Nat :=
  runLenAux k (s.drop i)

/-- Is an optional character a word character (absent counts as non-word)? -/
def wordOpt (o : Option Char) : Bool :=
  (o.map isWordChar).getD false

/-- Is the character at position `i` (if any) a word character? -/
def wordAt (s : List Char) (i : Nat) : Bool :=
  wordOpt s[i]?

/-- Python's `\b`: position `i` lies between a word character and a non-word
character (positions outside the text count as non-word). -/
def atBoundary (s : List Char) (i : Nat) : Bool :=
  (match i with
   | 0 => false
   | j + 1 => wordAt s j) != wordAt s i

/-- All end positions of a match of `re` starting at position `i` of `s`, in
Python backtracking preference order (the head is the end position the `re`
module would pick).  Ordered alternation tries the left branch first; greedy
`?` and `*` try the longer possibility first. -/
def ends : RE → List Char → Nat → List Nat
  | .eps, _, i => [i]
  | .cls k, s, i => if clsAt k s i then [i + 1] else []
  | .rep k n, s, i => if repOk k s i n then [i + n] else []
  | .cat a b, s, i => (ends a s i).flatMap fun j => ends b s j
  | .alt a b, s, i => ends a s i ++ ends b s i
  | .opt a, s, i => ends a s i ++ [i]
  | .starCls k, s, i =>
      (List.range (runLen k s i + 1)).map fun t => i + (runLen k s i - t)
  | .wb, s, i => if atBoundary s i then [i] else []

/-- `cpf_regex` (src/app.py lines 20-28), with `re.VERBOSE` whitespace and
comments stripped:
`\b(?:\d{3}[\.\s-]?\d{3}[\.\s-]?\d{3}[\.\s-]?\d{2}|\d{11})\b`. -/
def cpf_regex : RE :=
  .cat .wb (.cat
    (.alt
      (.cat (.rep .digit 3) (.cat (.opt (.cls .sepA))
        (.cat (.rep .digit 3) (.cat (.opt (.cls .sepA))
          (.cat (.rep .digit 3) (.cat (.opt (.cls .sepA))
            (.rep .digit 2)))))))
      (.rep .digit 11))
    .wb)

/-- The optional `CNPJ` tag of `cnpj_regex`: `(?:CNPJ\s*:?\s*)?`
(case-insensitive). -/
def cnpjTag : RE :=
  .opt (.cat (.cls .litC) (.cat (.cls .litN) (.cat (.cls .litP)
    (.cat (.cls .litJ) (.cat (.starCls .space)
      (.cat (.opt (.cls .colon)) (.starCls .space)))))))

/-- `cnpj_regex` (src/app.py lines 35-42), with `re.VERBOSE` whitespace and
comments stripped: the optional tag `(?:CNPJ\s*:?\s*)?` followed by either
`\d{2} [\.\s-]? \d{3} [\.\s-]? \d{3} [\s SLASH -]? \d{4} [\s-]? \d{2}`
(writing SLASH for the forward-slash character, allowed before the 4th group)
or `\d{14}`.  Note there is no `\b` anchoring (deliberate per the source
comment at line 36). -/
def cnpj_regex : RE :=
  .cat cnpjTag
    (.alt
      (.cat (.rep .digit 2) (.cat (.opt (.cls .sepA))
        (.cat (.rep .digit 3) (.cat (.opt (.cls .sepA))
          (.cat (.rep .digit 3) (.cat (.opt (.cls .sepB))
            (.cat (.rep .digit 4) (.cat (.opt (.cls .sepC))
              (.rep .digit 2)))))))))
      (.rep .digit 14))

/-- `combined_pattern` (src/app.py lines 47-50): `(?:cpf_regex|cnpj_regex)`.
The `re` module tries the CPF branch first at every position. -/
def combined_pattern : RE := .alt cpf_regex cnpj_regex

/-- Leftmost match of `re` in `s` starting at or after position `i`: the first
position with a match, together with the end position the backtracking matcher
prefers.  Mirrors `re`'s scan loop. -/
def searchFrom (re : RE) (s : List Char) (i : Nat) : Option (Nat × Nat) :=
  (List.range (s.length + 1 - i)).findSome? fun d =>
    (ends re s (i + d)).head?.map fun j => (i + d, j)

/-- `re.search`: leftmost match in the whole text. -/
def searchRE (re : RE) (s : List Char) : Option (Nat × Nat) :=
  searchFrom re s 0

/-- The Pattern Library's match operation: `re.search(combined_pattern, text)
is not None` (as used at src/app.py line 142). -/
def matchesText (s : List Char) : Bool :=
  (searchRE combined_pattern s).isSome

/-- One step list of `re.finditer`: collect non-overlapping matches left to
right, resuming after each match (the pattern cannot match the empty string,
but we still advance by at least one position, as the `re` scanner does). -/
def findIterAux (s : List Char) : Nat → Nat → List (Nat × Nat)
  | 0, _ => []
  | fuel + 1, i =>
      match searchFrom combined_pattern s i with
      | none => []
      | some (i', j) => (i', j) :: findIterAux s fuel (max j (i' + 1))

/-- `re.finditer(combined_pattern, text)`: the (start, end) spans of all
non-overlapping matches. -/
def findIter (s : List Char) : List (Nat × Nat) :=
  findIterAux s (s.length + 1) 0

/-- The matched substrings of `re.finditer` (`match.group(0)` at
src/app.py line 103). -/
def findIterTexts (s : List Char) : List (List Char) :=
  (findIter s).map fun ij => (s.drop ij.1).take (ij.2 - ij.1)

/-- Python `str.strip()` on ASCII text: drop whitespace from both ends. -/
def stripChars (s : List Char) : List Char :=
  ((s.dropWhile isPySpace).reverse.dropWhile isPySpace).reverse

/-! ### Rectangles, rounding and deduplication (Coordinate Reconciler) -/

/-- A `fitz.Rect`: four page-space coordinates.  The source's floating-point
coordinates are modelled as rationals. -/
structure PRect where
  x0 : ℚ
  y0 : ℚ
  x1 : ℚ
  y1 : ℚ
deriving DecidableEq

/-- Python's `round(x, 1)`: round to one decimal place (modelled as rounding
`10 * x` to the nearest integer; the dedup claims do not exercise the
tie-breaking rule). -/
def round1 (x : ℚ) : ℚ := ((round (10 * x) : ℤ) : ℚ) / 10

/-- The dedup key of src/app.py line 203:
`(round(r.x0, 1), round(r.y0, 1), round(r.x1, 1), round(r.y1, 1))`. -/
def roundKey (r : PRect) : ℚ × ℚ × ℚ × ℚ :=
  (round1 r.x0, round1 r.y0, round1 r.x1, round1 r.y1)

/-- The dedup loop of src/app.py lines 200-207, with the `seen` set made
explicit as the list of keys inserted so far. -/
def dedupLoop : List PRect → List (ℚ × ℚ × ℚ × ℚ) → List PRect
  | [], _ => []
  | r :: rs, seen =>
      if roundKey r ∈ seen then dedupLoop rs seen
      else r :: dedupLoop rs (roundKey r :: seen)

/-- Deduplication of the concatenated detector results (`unique` in `main`). -/
def dedupRects (rs : List PRect) : List PRect := dedupLoop rs []

/-! ### Oracle model of the engine calls -/

/-- Outcome of a Python call that may raise: `ok` with a value, or an
exception. -/
inductive PyResult (α : Type) where
  | ok (a : α)
  | exc
deriving DecidableEq

/-- An EasyOCR fragment as returned by `reader.readtext(...)` (src/app.py
line 128): a bounding polygon in raster-pixel space, the recognized text and a
confidence score. -/
structure OcrFrag where
  box : List (ℚ × ℚ)
  text : List Char
  conf : ℚ

/-- The textpage object of the inner fallback at src/app.py lines 76-84:
whether it has a `search` attribute, and the outcome of `tp.search(...)`
(which returns a rectangle list or `None`, or raises). -/
structure TextPageOps where
  hasSearch : Bool
  searchRes : PyResult (Option (List PRect))

/-- Oracle bundle for one page: the outcomes of the external PyMuPDF / EasyOCR
calls the pipeline makes on that page.  The pipeline itself is deterministic
given these outcomes. -/
structure PageOps where
  /-- `page.search_for(combined_pattern.pattern, flags=...)` (line 72):
  a rectangle list or `None`, or raises. -/
  primarySearch : PyResult (Option (List PRect))
  /-- `hasattr(page, "get_textpage")` (line 76). -/
  hasGetTextpage : Bool
  /-- `page.get_textpage(flags=...)` (line 77). -/
  getTextpage : PyResult TextPageOps
  /-- `page.get_text("text")` (line 95): a string or `None`, or raises. -/
  getTextRes : PyResult (Option (List Char))
  /-- `page.search_for(matched_text)` for a literal substring (line 107). -/
  literalSearch : List Char → PyResult (Option (List PRect))
  /-- `page.get_pixmap(matrix=mat, alpha=False)` (line 162): rasterization
  either succeeds or raises. -/
  raster : PyResult Unit
  /-- `reader.readtext(...)` (line 128): the OCR fragments, or raises. -/
  ocr : PyResult (List OcrFrag)

/-- Mutable page state: the redaction annotations added so far and how many
times `page.apply_redactions()` has been called. -/
structure PageState where
  annots : List PRect
  applyCount : Nat
deriving DecidableEq

/-- `page.add_redact_annot(r, fill=(0, 0, 0))`. -/
def addAnnot (st : PageState) (r : PRect) : PageState :=
  { st with annots := st.annots ++ [r] }

/-- `page.apply_redactions()`. -/
def applyRedactions (st : PageState) : PageState :=
  { st with applyCount := st.applyCount + 1 }

/-! ### The three detectors -/

/-- `search_text_principal` (src/app.py lines 61-87): primary regex search;
on an exception, fall back to `textpage.search` when available; any failure of
the fallback yields the empty list. -/
def search_text_principal (ops : PageOps) : List PRect :=
  match ops.primarySearch with
  | .ok r => r.getD []
  | .exc =>
      if ops.hasGetTextpage then
        match ops.getTextpage with
        | .exc => []
        | .ok tp =>
            if tp.hasSearch then
              match tp.searchRes with
              | .ok r => r.getD []
              | .exc => []
            else []
      else []

/-- The page text used by the fallback detector (src/app.py lines 94-97):
`page.get_text("text") or ""`, with an exception mapped to `""`. -/
def pageTextOf (ops : PageOps) : List Char :=
  match ops.getTextRes with
  | .ok t => t.getD []
  | .exc => []

/-- `fallback_literal_rects` (src/app.py lines 90-111): run `re.finditer` over
the page text; for each match, strip it, skip it when empty, and extend the
result with the rectangles of a literal `page.search_for` of the matched
substring; a search exception skips that substring. -/
def fallback_literal_rects (ops : PageOps) : List PRect :=
  let pageText := pageTextOf ops
  if pageText.isEmpty then []
  else
    (findIterTexts pageText).foldl
      (fun acc mt =>
        let m := stripChars mt
        if m.isEmpty then acc
        else
          match ops.literalSearch m with
          | .ok r => acc ++ r.getD []
          | .exc => acc)
      []

/-- The sequence of arguments passed to `page.search_for` by the loop of
`fallback_literal_rects` (one call per `re.finditer` match whose stripped text
is non-empty, in order). -/
def fallbackSearchCalls (ops : PageOps) : List (List Char) :=
  let pageText := pageTextOf ops
  if pageText.isEmpty then []
  else
    (findIterTexts pageText).foldl
      (fun acc mt =>
        let m := stripChars mt
        if m.isEmpty then acc else acc ++ [m])
      []

/-- Axis-aligned bounding box of an OCR polygon (src/app.py lines 144-146:
`min`/`max` over the four points). -/
def bboxOf (pts : List (ℚ × ℚ)) : PRect :=
  let xs := pts.map Prod.fst
  let ys := pts.map Prod.snd
  { x0 := xs.foldl min (xs.headD 0)
    y0 := ys.foldl min (ys.headD 0)
    x1 := xs.foldl max (xs.headD 0)
    y1 := ys.foldl max (ys.headD 0) }

/-- `boxes_to_rects_if_match` (src/app.py lines 133-152): keep the pixel-space
bounding box of every fragment with non-empty text in which
`re.search(combined_pattern, text)` finds a match. -/
def boxes_to_rects_if_match (frags : List OcrFrag) : List PRect :=
  frags.foldl
    (fun acc f =>
      if f.text.isEmpty then acc
      else if matchesText f.text then acc ++ [bboxOf f.box]
      else acc)
    []

/-- Coordinatewise scaling of a rectangle by `z`: `fitz.Rect(r) * fitz.Matrix(z, z)`. -/
def scaleRect (z : ℚ) (r : PRect) : PRect :=
  { x0 := z * r.x0, y0 := z * r.y0, x1 := z * r.x1, y1 := z * r.y1 }

/-- `ocr_rects_for_page` (src/app.py lines 155-174): compute `zoom = dpi / 72`,
rasterize through the zoom matrix (may raise), run OCR (may raise), filter the
fragments against the pattern and map every pixel-space box back to page space
with the inverse scale `1 / zoom`.  Exceptions are not caught: they propagate. -/
def ocr_rects_for_page (ops : PageOps) (dpi : ℚ) : PyResult (List PRect) :=
  let zoom : ℚ := dpi / 72
  match ops.raster with
  | .exc => .exc
  | .ok _ =>
      match ops.ocr with
      | .exc => .exc
      | .ok frags =>
          .ok ((boxes_to_rects_if_match frags).map (scaleRect (1 / zoom)))

/-! ### Reconciler commit and the two pipelines -/

/-- `OCR_DPI = 200` (src/app.py line 13). -/
def OCR_DPI : ℚ := 200

/-- `redact_rects` (src/app.py lines 53-58): add one redaction annotation per
rectangle, then apply the redactions only when the list is non-empty. -/
def redact_rects (st : PageState) (rects : List PRect) : PageState :=
  let st1 := rects.foldl addAnnot st
  if rects.isEmpty then st1 else applyRedactions st1

/-- One iteration of the page loop of `main` (src/app.py lines 184-210):
the three detectors in order (native, fallback, OCR), concatenation,
deduplication, guarded commit.  An OCR exception propagates. -/
def processPageMain (ops : PageOps) (st : PageState) : PyResult PageState :=
  let rectsPrimary := search_text_principal ops
  let rectsFallback := fallback_literal_rects ops
  match ocr_rects_for_page ops OCR_DPI with
  | .exc => .exc
  | .ok ocrRects =>
      let allRects := rectsPrimary ++ rectsFallback ++ ocrRects
      .ok (redact_rects st (dedupRects allRects))

/-- The page loop of `main` (src/app.py lines 177-210) over the whole
document: a document is the list of its pages, each given by its engine-call
oracle and its initial state.  A page failure aborts the loop. -/
def mainPass : List (PageOps × PageState) → PyResult (List PageState)
  | [] => .ok []
  | (ops, st) :: rest =>
      match processPageMain ops st with
      | .exc => .exc
      | .ok st' =>
          match mainPass rest with
          | .exc => .exc
          | .ok sts => .ok (st' :: sts)

/-- One iteration of the page loop of the module-level trailing block
(src/app.py lines 253-300).  The block textually duplicates the primary-search
and fallback logic of `search_text_principal` / `fallback_literal_rects`
(annotating each found rectangle), performs no OCR pass, and then calls
`page.apply_redactions()` unconditionally (line 300). -/
def trailingProcessPage (ops : PageOps) (st : PageState) : PageState :=
  let st1 := (search_text_principal ops).foldl addAnnot st
  let st2 := (fallback_literal_rects ops).foldl addAnnot st1
  applyRedactions st2

/-- The trailing block's page loop (src/app.py lines 253-300); it re-opens
`entrada.pdf`, so it starts from the same input document as `main`. -/
def trailingPass (doc : List (PageOps × PageState)) : List PageState :=
  doc.map fun pg => trailingProcessPage pg.1 pg.2

/-- The output path both saves write to (src/app.py lines 213 and 303). -/
def outputPath : String := "saida_anonimizada.pdf"

/-- Executing the file as a script: module level runs top to bottom, so after
the `__main__` guard runs `main()` (which saves the first pass's result), the
trailing block at lines 250-303 runs unconditionally, re-opens the input
document and saves its own two-detector result to the same path.  The result
is the sequence of (path, contents) save events; an uncaught exception in
`main()` aborts the script before any further save. -/
def script (doc : List (PageOps × PageState)) :
    PyResult (List (String × List PageState)) :=
  match mainPass doc with
  | .exc => .exc
  | .ok out1 => .ok [(outputPath, out1), (outputPath, trailingPass doc)]

/-! ### Symbolic end-to-end model for the idempotence claim

The redaction-commit primitive and the OCR engine are external collaborators;
for the idempotence claim (spec section 8) their contracts are modelled from
the spec on a symbolic page carrying its searchable-text content and its
pixel-only (scanned) text content. -/

/-- A symbolic page: `text` is the searchable text layer, `pixels` is
identifier-bearing content present only as pixels (a scanned region). -/
structure SymPage where
  text : List Char
  pixels : List Char
deriving DecidableEq

/-- Whether the text-based detectors (native search at src/app.py lines 61-87
and literal fallback at lines 90-111) find an identifier on the page: both
search the text layer with `combined_pattern`. -/
def symTextDetects (p : SymPage) : Bool := matchesText p.text

/-- Modelled from the spec: the Raster OCR Detector (spec 4.4) reads the
page's pixel content and filters it against the Identifier Pattern, so it
fires exactly when the scanned content matches `combined_pattern`. -/
def symOcrDetects (p : SymPage) : Bool := matchesText p.pixels

/-- Any detector fires on the page. -/
def symDetections (p : SymPage) : Bool := symTextDetects p || symOcrDetects p

/-- Modelled from the spec: committing a detection makes the detected region
"visually and textually unrecoverable" (spec section 3, Invariant), so a layer
on which a detector fired is emptied by the commit.  `main`'s pass
(src/app.py lines 184-210) runs all three detectors. -/
def symMainRedact (p : SymPage) : SymPage :=
  { text := if symTextDetects p then [] else p.text
    pixels := if symOcrDetects p then [] else p.pixels }

/-- The trailing block's pass (src/app.py lines 253-300) runs only the two
text-based detectors, so a commit there never touches pixel-only content. -/
def symTrailingRedact (p : SymPage) : SymPage :=
  { text := if symTextDetects p then [] else p.text
    pixels := p.pixels }

/-- The document the script finally persists: per the save order of
src/app.py lines 213 and 303, the trailing two-detector pass (run on the
re-opened original input) overwrites `main`'s saved output. -/
def symScriptOutput (doc : List SymPage) : List SymPage :=
  doc.map symTrailingRedact

/-- A scanned page whose only identifier exists as pixels: no text layer,
printed digits `12345678901`. -/
def scannedPage : SymPage := { text := [], pixels := "12345678901".toList }

/-! ### Concrete instances used in the claim evaluations -/

/-- A benign page oracle: every engine call succeeds and finds nothing; the
page text is `hello`. -/
def quietOps : PageOps :=
  { primarySearch := .ok (some [])
    hasGetTextpage := false
    getTextpage := .exc
    getTextRes := .ok (some "hello".toList)
    literalSearch := fun _ => .ok (some [])
    raster := .ok ()
    ocr := .ok [] }

/-- A page oracle whose page text contains the same CPF-shaped number twice. -/
def twoCpfOps : PageOps :=
  { quietOps with getTextRes := .ok (some "11111111111 11111111111".toList) }

/-- A fresh page state: no annotations, no redactions applied yet. -/
def freshPage : PageState := { annots := [], applyCount := 0 }

/-- A one-page document with no identifiers anywhere. -/
def quietDoc : List (PageOps × PageState) := [(quietOps, freshPage)]

/-- Replace the OCR-related oracles of a page (the rasterization call and the
OCR engine call). -/
def withOcrOracle (ops : PageOps) (r : PyResult Unit)
    (o : PyResult (List OcrFrag)) : PageOps :=
  { ops with raster := r, ocr := o }

/-- The texts the claims evaluate concretely: a bare 15-digit run. -/
def run15 : List Char := "123456789012345".toList

/-- A bare 11-digit run. -/
def elevenRun : List Char := "12345678901".toList

/-- The same CPF-shaped number twice, as extracted page text. -/
def twoCpfText : List Char := "11111111111 11111111111".toList

/-- The 11-digit run of ones appearing twice in `twoCpfText`. -/
def onesRun : List Char := "11111111111".toList

/-- ASCII-only texts: the domain on which the embedded character classes
coincide with Python's Unicode-aware `\w` and `\s`. -/
def asciiOnly (l : List Char) : Prop := ∀ c ∈ l, c.toNat < 128

instance (l : List Char) : Decidable (asciiOnly l) := by
  unfold asciiOnly
  infer_instance

/-! ### Exhibiting matches: a derivation system for the matcher -/

/-- `MatchesRE re pre mid post`: in the text `pre ++ mid ++ post`, the
expression `re` can match exactly the segment `mid` starting at position
`pre.length`. -/
inductive MatchesRE : RE → List Char → List Char → List Char → Prop where
  | eps {pre post : List Char} : MatchesRE .eps pre [] post
  | cls {k : CC} {c : Char} {pre post : List Char} :
      CC.eval k c = true → MatchesRE (.cls k) pre [c] post
  | rep {k : CC} {n : Nat} {pre mid post : List Char} :
      mid.length = n → (∀ c ∈ mid, CC.eval k c = true) →
      MatchesRE (.rep k n) pre mid post
  | cat {a b : RE} {pre m1 m2 post : List Char} :
      MatchesRE a pre m1 (m2 ++ post) → MatchesRE b (pre ++ m1) m2 post →
      MatchesRE (.cat a b) pre (m1 ++ m2) post
  | altL {a b : RE} {pre mid post : List Char} :
      MatchesRE a pre mid post → MatchesRE (.alt a b) pre mid post
  | altR {a b : RE} {pre mid post : List Char} :
      MatchesRE b pre mid post → MatchesRE (.alt a b) pre mid post
  | optS {a : RE} {pre mid post : List Char} :
      MatchesRE a pre mid post → MatchesRE (.opt a) pre mid post
  | optN {a : RE} {pre post : List Char} : MatchesRE (.opt a) pre [] post
  | star {k : CC} {pre mid post : List Char} :
      (∀ c ∈ mid, CC.eval k c = true) → MatchesRE (.starCls k) pre mid post
  | wb {pre post : List Char} :
      wordOpt pre.getLast? ≠ wordOpt post.head? → MatchesRE .wb pre [] post

lemma getElem?_append_mid (p mid rest : List Char) {m : Nat} (hm : m < mid.length) :
    (p ++ (mid ++ rest))[p.length + m]? = mid[m]? := by
  rw [List.getElem?_append_right (Nat.le_add_right _ _), Nat.add_sub_cancel_left]
  simp [List.getElem?_append, hm]

lemma clsAt_append_mid {k : CC} (p mid rest : List Char) {m : Nat}
    (hm : m < mid.length) (hd : ∀ c ∈ mid, CC.eval k c = true) :
    clsAt k (p ++ (mid ++ rest)) (p.length + m) = true := by
  rw [clsAt, getElem?_append_mid p mid rest hm, List.getElem?_eq_getElem hm]
  simpa using hd _ (List.getElem_mem hm)

lemma runLenAux_ge {k : CC} {mid rest : List Char}
    (hd : ∀ c ∈ mid, CC.eval k c = true) :
    mid.length ≤ runLenAux k (mid ++ rest) := by
  induction mid with
  | nil => simp
  | cons c t ih =>
      have hc : CC.eval k c = true := hd c (by simp)
      have ht := ih fun c hc => hd c (by simp [hc])
      simpa [runLenAux, hc] using ht

lemma atBoundary_append (pre post : List Char) :
    atBoundary (pre ++ post) pre.length
      = (wordOpt pre.getLast? != wordOpt post.head?) := by
  rcases List.eq_nil_or_concat pre with rfl | ⟨l, a, rfl⟩
  · simp [atBoundary, wordAt, wordOpt, List.head?_eq_getElem?]
  · rw [List.concat_eq_append, List.append_assoc]
    have hlen : (l ++ [a]).length = l.length + 1 := by simp
    have h1 : wordAt (l ++ ([a] ++ post)) l.length = isWordChar a := by
      have h0 := getElem?_append_mid l [a] post (m := 0) (by simp)
      rw [Nat.add_zero] at h0
      rw [wordAt, h0]
      simp [wordOpt]
    have h2 : wordAt (l ++ ([a] ++ post)) (l.length + 1) = wordOpt post.head? := by
      rw [wordAt, List.getElem?_append_right (Nat.le_add_right _ _),
        Nat.add_sub_cancel_left, List.getElem?_append_right (by simp),
        List.head?_eq_getElem?]
      simp
    rw [hlen, List.getLast?_concat, atBoundary, h1, h2]
    simp [wordOpt]

/-- Soundness of the derivation system for the backtracking matcher. -/
theorem matchesRE_sound {re : RE} {pre mid post : List Char}
    (h : MatchesRE re pre mid post) :
    pre.length + mid.length ∈ ends re (pre ++ (mid ++ post)) pre.length := by
  induction h with
  | @eps pre post => simp [ends]
  | @cls k c pre post hc =>
      have hg : (pre ++ ([c] ++ post))[pre.length]? = some c := by
        have h0 := getElem?_append_mid pre [c] post (m := 0) (by simp)
        rw [Nat.add_zero] at h0
        exact h0
      simp only [ends, clsAt, hg]
      simp [hc]
  | @rep k n pre mid post hn hd =>
      have hok : repOk k (pre ++ (mid ++ post)) pre.length n = true := by
        rw [repOk, List.all_eq_true]
        intro m hm
        rw [List.mem_range] at hm
        exact clsAt_append_mid pre mid post (by omega) hd
      simp [ends, hok, hn]
  | @cat a b pre m1 m2 post h1 h2 ih1 ih2 =>
      simp only [ends]
      rw [List.mem_flatMap]
      rw [List.length_append pre m1, List.append_assoc pre m1 (m2 ++ post)] at ih2
      refine ⟨pre.length + m1.length, ?_, ?_⟩
      · rw [List.append_assoc m1 m2 post]
        exact ih1
      · rw [List.append_assoc m1 m2 post, List.length_append m1 m2,
          ← Nat.add_assoc]
        exact ih2
  | @altL a b pre mid post h ih =>
      rw [ends]; exact List.mem_append_left _ ih
  | @altR a b pre mid post h ih =>
      rw [ends]; exact List.mem_append_right _ ih
  | @optS a pre mid post h ih =>
      rw [ends]; exact List.mem_append_left _ ih
  | @optN a pre post =>
      rw [ends]; exact List.mem_append_right _ (by simp)
  | @star k pre mid post hd =>
      rw [ends]
      simp only [runLen, List.drop_left]
      have hle : mid.length ≤ runLenAux k (mid ++ post) := runLenAux_ge hd
      rw [List.mem_map]
      exact ⟨runLenAux k (mid ++ post) - mid.length,
        List.mem_range.mpr (by omega), by rw [Nat.sub_sub_self hle]⟩
  | @wb pre post hb =>
      have hbd : atBoundary (pre ++ post) pre.length = true := by
        rw [atBoundary_append]
        exact bne_iff_ne.mpr hb
      simp only [ends, List.nil_append, hbd]
      simp

lemma matchesText_of_ends_ne {s : List Char} {i : Nat} (hi : i ≤ s.length)
    (h : ends combined_pattern s i ≠ []) : matchesText s = true := by
  have hne : searchFrom combined_pattern s 0 ≠ none := by
    intro hn
    rw [searchFrom, List.findSome?_eq_none_iff] at hn
    have hd := hn i (List.mem_range.mpr (by omega))
    rw [Option.map_eq_none', List.head?_eq_none_iff] at hd
    exact h (by simpa using hd)
  rw [matchesText, searchRE, ← Option.ne_none_iff_isSome]
  exact hne

/-- Any derivation for either branch of `combined_pattern` yields a
successful `matchesText`. -/
lemma matchesText_of_matchesRE {pre mid post : List Char}
    (h : MatchesRE combined_pattern pre mid post) :
    matchesText (pre ++ (mid ++ post)) = true := by
  refine matchesText_of_ends_ne (i := pre.length) ?_ ?_
  · simp [List.length_append]
  · exact List.ne_nil_of_mem (matchesRE_sound h)

lemma mre_catL {a b : RE} {pre mid post : List Char}
    (h1 : MatchesRE a pre [] (mid ++ post)) (h2 : MatchesRE b pre mid post) :
    MatchesRE (.cat a b) pre mid post := by
  have h2' : MatchesRE b (pre ++ []) mid post := by
    rw [List.append_nil]; exact h2
  exact MatchesRE.cat h1 h2'

lemma mre_catR {a b : RE} {pre mid post : List Char}
    (h1 : MatchesRE a pre mid post) (h2 : MatchesRE b (pre ++ mid) [] post) :
    MatchesRE (.cat a b) pre mid post := by
  have h1' : MatchesRE a pre mid ([] ++ post) := h1
  have h3 : MatchesRE (.cat a b) pre (mid ++ []) post := MatchesRE.cat h1' h2
  simpa using h3

/-- An optional separator: absent, or one character of class `k`. -/
def sepOptP (k : CC) (l : List Char) : Prop :=
  l = [] ∨ ∃ c, l = [c] ∧ CC.eval k c = true

lemma mre_optCls {k : CC} {pre l post : List Char} (h : sepOptP k l) :
    MatchesRE (.opt (.cls k)) pre l post := by
  rcases h with rfl | ⟨c, rfl, hc⟩
  · exact MatchesRE.optN
  · exact MatchesRE.optS (MatchesRE.cls hc)

lemma isWordChar_of_digit {c : Char} (h : CC.eval .digit c = true) :
    isWordChar c = true := by
  rw [CC.eval] at h
  simp [isWordChar, h]

lemma wordOpt_head_digits {mid rest : List Char} (hne : mid ≠ [])
    (hd : ∀ c ∈ mid, CC.eval .digit c = true) :
    wordOpt (mid ++ rest).head? = true := by
  cases mid with
  | nil => exact absurd rfl hne
  | cons c t =>
      have hc := isWordChar_of_digit (hd c (by simp))
      simp [wordOpt, hc]

lemma wordOpt_getLast_digits {pre mid : List Char} (hne : mid ≠ [])
    (hd : ∀ c ∈ mid, CC.eval .digit c = true) :
    wordOpt (pre ++ mid).getLast? = true := by
  rw [List.getLast?_append, List.getLast?_eq_getLast mid hne]
  have hc := isWordChar_of_digit (hd _ (List.getLast_mem hne))
  simp [Option.or, wordOpt, hc]

/-! ### Class equivalence: the matcher only inspects character classes -/

/-- Two characters the matcher cannot distinguish: they agree on every
character class of the patterns and on `\w`. -/
def CharEquiv (c c' : Char) : Prop :=
  (∀ k : CC, CC.eval k c = CC.eval k c') ∧ isWordChar c = isWordChar c'

lemma clsAt_congr {s s' : List Char} (h : List.Forall₂ CharEquiv s s') (k : CC) :
    ∀ i, clsAt k s i = clsAt k s' i := by
  induction h with
  | nil => intro i; rfl
  | cons hc ht ih =>
      intro i
      cases i with
      | zero => simp [clsAt, hc.1]
      | succ j => simpa [clsAt] using ih j

lemma wordAt_congr {s s' : List Char} (h : List.Forall₂ CharEquiv s s') :
    ∀ i, wordAt s i = wordAt s' i := by
  induction h with
  | nil => intro i; rfl
  | cons hc ht ih =>
      intro i
      cases i with
      | zero => simp [wordAt, wordOpt, hc.2]
      | succ j => simpa [wordAt, wordOpt] using ih j

lemma atBoundary_congr {s s' : List Char} (h : List.Forall₂ CharEquiv s s')
    (i : Nat) : atBoundary s i = atBoundary s' i := by
  cases i with
  | zero => simp [atBoundary, wordAt_congr h]
  | succ j => simp [atBoundary, wordAt_congr h]

lemma repOk_congr {s s' : List Char} (h : List.Forall₂ CharEquiv s s')
    (k : CC) (i n : Nat) : repOk k s i n = repOk k s' i n := by
  simp [repOk, clsAt_congr h k]

lemma runLenAux_congr {s s' : List Char} (h : List.Forall₂ CharEquiv s s')
    (k : CC) : runLenAux k s = runLenAux k s' := by
  induction h with
  | nil => rfl
  | cons hc ht ih => simp [runLenAux, hc.1, ih]

lemma forall₂_drop {R : Char → Char → Prop} (n : Nat) {s s' : List Char}
    (h : List.Forall₂ R s s') : List.Forall₂ R (s.drop n) (s'.drop n) := by
  induction n generalizing s s' with
  | zero => simpa using h
  | succ m ih =>
      cases h with
      | nil => exact List.Forall₂.nil
      | cons hc ht => simpa using ih ht

lemma flatMap_congr {f g : Nat → List Nat} (l : List Nat) (h : ∀ j, f j = g j) :
    l.flatMap f = l.flatMap g := by
  induction l with
  | nil => rfl
  | cons a t ih => simp [List.flatMap_cons, h a, ih]

/-- Texts that are pointwise class-equivalent produce identical matcher
results. -/
lemma ends_congr {s s' : List Char} (h : List.Forall₂ CharEquiv s s') :
    ∀ (re : RE) (i : Nat), ends re s i = ends re s' i := by
  intro re
  induction re with
  | eps => intro i; rfl
  | cls k => intro i; simp [ends, clsAt_congr h k]
  | rep k n => intro i; simp [ends, repOk_congr h]
  | cat a b iha ihb =>
      intro i
      simp only [ends, iha]
      exact flatMap_congr _ ihb
  | alt a b iha ihb => intro i; simp [ends, iha, ihb]
  | opt a iha => intro i; simp [ends, iha]
  | starCls k =>
      intro i
      simp only [ends, runLen]
      rw [runLenAux_congr (forall₂_drop i h) k]
  | wb => intro i; simp [ends, atBoundary_congr h i]

lemma findSome?_congr {f g : Nat → Option (Nat × Nat)} (l : List Nat)
    (h : ∀ d, f d = g d) : l.findSome? f = l.findSome? g := by
  induction l with
  | nil => rfl
  | cons a t ih =>
      rw [List.findSome?_cons, List.findSome?_cons, h a]
      cases g a <;> simp [ih]

lemma searchRE_congr {re : RE} {s s' : List Char}
    (h : List.Forall₂ CharEquiv s s') : searchRE re s = searchRE re s' := by
  rw [searchRE, searchRE, searchFrom, searchFrom, h.length_eq]
  exact findSome?_congr _ fun d => by rw [ends_congr h]

lemma matchesText_congr {s s' : List Char} (h : List.Forall₂ CharEquiv s s') :
    matchesText s = matchesText s' := by
  rw [matchesText, matchesText, searchRE_congr h]

lemma eval_digit_ne {c x : Char} (hd : CC.eval .digit c = true)
    (hx : CC.eval .digit x = false) : c ≠ x := by
  intro he
  subst he
  rw [hx] at hd
  simp at hd

lemma beq_false_of_digit {c : Char} (x : Char) (hd : CC.eval .digit c = true)
    (hx : CC.eval .digit x = false) : (c == x) = false :=
  beq_eq_false_iff_ne.mpr (eval_digit_ne hd hx)

lemma isPySpace_of_digit {c : Char} (hd : CC.eval .digit c = true) :
    isPySpace c = false := by
  rw [isPySpace]
  simp [beq_false_of_digit ' ' hd (by decide),
    beq_false_of_digit '\t' hd (by decide),
    beq_false_of_digit '\n' hd (by decide),
    beq_false_of_digit '\r' hd (by decide),
    beq_false_of_digit '\x0b' hd (by decide),
    beq_false_of_digit '\x0c' hd (by decide)]

/-- Every digit is, for the matcher, interchangeable with `'0'`. -/
lemma charEquiv_digit {c : Char} (hd : CC.eval .digit c = true) :
    CharEquiv c '0' := by
  constructor
  · intro k
    cases k with
    | digit => rw [hd]; decide
    | sepA =>
        have hL : CC.eval .sepA c = false := by
          simp [CC.eval, beq_false_of_digit '.' hd (by decide),
            beq_false_of_digit '-' hd (by decide), isPySpace_of_digit hd]
        rw [hL]; decide
    | sepB =>
        have hL : CC.eval .sepB c = false := by
          simp [CC.eval, beq_false_of_digit '/' hd (by decide),
            beq_false_of_digit '-' hd (by decide), isPySpace_of_digit hd]
        rw [hL]; decide
    | sepC =>
        have hL : CC.eval .sepC c = false := by
          simp [CC.eval, beq_false_of_digit '-' hd (by decide),
            isPySpace_of_digit hd]
        rw [hL]; decide
    | space =>
        have hL : CC.eval .space c = false := isPySpace_of_digit hd
        rw [hL]; decide
    | litC =>
        have hL : CC.eval .litC c = false := by
          simp [CC.eval, beq_false_of_digit 'C' hd (by decide),
            beq_false_of_digit 'c' hd (by decide)]
        rw [hL]; decide
    | litN =>
        have hL : CC.eval .litN c = false := by
          simp [CC.eval, beq_false_of_digit 'N' hd (by decide),
            beq_false_of_digit 'n' hd (by decide)]
        rw [hL]; decide
    | litP =>
        have hL : CC.eval .litP c = false := by
          simp [CC.eval, beq_false_of_digit 'P' hd (by decide),
            beq_false_of_digit 'p' hd (by decide)]
        rw [hL]; decide
    | litJ =>
        have hL : CC.eval .litJ c = false := by
          simp [CC.eval, beq_false_of_digit 'J' hd (by decide),
            beq_false_of_digit 'j' hd (by decide)]
        rw [hL]; decide
    | colon =>
        have hL : CC.eval .colon c = false := by
          simp [CC.eval, beq_false_of_digit ':' hd (by decide)]
        rw [hL]; decide
  · rw [isWordChar_of_digit hd]; decide

lemma forall₂_replicate_digit {ds : List Char}
    (hd : ∀ c ∈ ds, CC.eval .digit c = true) :
    List.Forall₂ CharEquiv ds (List.replicate ds.length '0') := by
  induction ds with
  | nil => exact List.Forall₂.nil
  | cons c t ih =>
      simp only [List.length_cons, List.replicate_succ]
      exact List.Forall₂.cons (charEquiv_digit (hd c (by simp)))
        (ih fun x hx => hd x (by simp [hx]))

/-- A text made of digits behaves, under the matcher, like the all-zero text
of the same length. -/
lemma matchesText_digit_run {ds : List Char}
    (hd : ∀ c ∈ ds, CC.eval .digit c = true) :
    matchesText ds = matchesText (List.replicate ds.length '0') :=
  matchesText_congr (forall₂_replicate_digit hd)

lemma searchRE_digit_run {re : RE} {ds : List Char}
    (hd : ∀ c ∈ ds, CC.eval .digit c = true) :
    searchRE re ds = searchRE re (List.replicate ds.length '0') :=
  searchRE_congr (forall₂_replicate_digit hd)

/-! ### Properties of the dedup loop and the pipeline folds -/

lemma dedupLoop_sublist (rs : List PRect) :
    ∀ seen : List (ℚ × ℚ × ℚ × ℚ), (dedupLoop rs seen).Sublist rs := by
  induction rs with
  | nil => intro seen; simp [dedupLoop]
  | cons r t ih =>
      intro seen
      rw [dedupLoop]
      by_cases h : roundKey r ∈ seen
      · rw [if_pos h]; exact (ih seen).cons r
      · rw [if_neg h]; exact (ih _).cons₂ r

lemma dedupLoop_filter (k : ℚ × ℚ × ℚ × ℚ) (rs : List PRect) :
    ∀ seen : List (ℚ × ℚ × ℚ × ℚ),
    (dedupLoop rs seen).filter (fun r => decide (roundKey r = k))
      = if k ∈ seen then []
        else (rs.filter (fun r => decide (roundKey r = k))).take 1 := by
  induction rs with
  | nil => intro seen; by_cases h : k ∈ seen <;> simp [dedupLoop, h]
  | cons r t ih =>
      intro seen
      rw [dedupLoop]
      by_cases hs : roundKey r ∈ seen
      · rw [if_pos hs, ih]
        by_cases hk : k ∈ seen
        · rw [if_pos hk, if_pos hk]
        · have hrk : ¬ roundKey r = k := fun he => hk (he ▸ hs)
          rw [if_neg hk, if_neg hk, List.filter_cons]
          simp [hrk]
      · rw [if_neg hs]
        by_cases hrk : roundKey r = k
        · have hk : ¬ k ∈ seen := fun hin => hs (hrk ▸ hin)
          rw [if_neg hk, List.filter_cons, List.filter_cons, ih]
          have hmem : k ∈ roundKey r :: seen := by
            rw [← hrk]; exact List.mem_cons_self _ _
          simp [hrk, hmem]
        · have hnm : (k ∈ roundKey r :: seen) ↔ k ∈ seen := by
            constructor
            · intro h
              rcases List.mem_cons.mp h with he | h
              · exact absurd he.symm hrk
              · exact h
            · exact fun h => List.mem_cons_of_mem _ h
          rw [List.filter_cons, List.filter_cons,
            if_neg (by simp [hrk] : ¬ (decide (roundKey r = k) = true)),
            if_neg (by simp [hrk] : ¬ (decide (roundKey r = k) = true)), ih]
          simp only [hnm]

lemma mem_map_roundKey_iff_filter {l : List PRect} {k : ℚ × ℚ × ℚ × ℚ} :
    k ∈ l.map roundKey ↔ l.filter (fun r => decide (roundKey r = k)) ≠ [] := by
  rw [List.mem_map]
  constructor
  · rintro ⟨r, hr, rfl⟩
    intro hnil
    have hmem : r ∈ l.filter (fun r' => decide (roundKey r' = roundKey r)) :=
      List.mem_filter.mpr ⟨hr, by simp⟩
    rw [hnil] at hmem
    exact List.not_mem_nil r hmem
  · intro hne
    obtain ⟨r, hr⟩ := List.exists_mem_of_ne_nil _ hne
    have hm := List.mem_filter.mp hr
    exact ⟨r, hm.1, by simpa using hm.2⟩

lemma foldl_id {α β : Type} (l : List β) (acc : α) :
    l.foldl (fun a _ => a) acc = acc := by
  induction l generalizing acc with
  | nil => rfl
  | cons b t ih => rw [List.foldl_cons]; exact ih acc

lemma foldl_calls_eq (ms : List (List Char)) :
    ∀ acc : List (List Char),
    ms.foldl
      (fun acc mt =>
        let m := stripChars mt
        if m.isEmpty then acc else acc ++ [m]) acc
      = acc ++ ((ms.map stripChars).filter fun m => !m.isEmpty) := by
  induction ms with
  | nil => intro acc; simp
  | cons mt t ih =>
      intro acc
      rw [List.foldl_cons]
      by_cases h : (stripChars mt).isEmpty
      · simp only [h]
        rw [ih]
        simp [h]
      · simp only [h]
        rw [ih]
        simp [h, List.append_assoc]

lemma foldl_rects_eq (sf : List Char → PyResult (Option (List PRect)))
    (ms : List (List Char)) :
    ∀ acc : List PRect,
    ms.foldl
      (fun acc mt =>
        let m := stripChars mt
        if m.isEmpty then acc
        else
          match sf m with
          | .ok r => acc ++ r.getD []
          | .exc => acc) acc
      = acc ++ (((ms.map stripChars).filter fun m => !m.isEmpty).flatMap fun m =>
          match sf m with
          | .ok r => r.getD []
          | .exc => []) := by
  induction ms with
  | nil => intro acc; simp
  | cons mt t ih =>
      intro acc
      rw [List.foldl_cons]
      by_cases h : (stripChars mt).isEmpty
      · simp only [h]
        rw [ih]
        simp [h]
      · cases hsf : sf (stripChars mt) with
        | ok r =>
            simp only [h, hsf]
            rw [ih]
            simp [h, hsf, List.append_assoc]
        | exc =>
            simp only [h, hsf]
            rw [ih]
            simp [h, hsf]

lemma foldl_addAnnot_applyCount (rs : List PRect) :
    ∀ st : PageState, (rs.foldl addAnnot st).applyCount = st.applyCount := by
  induction rs with
  | nil => intro st; rfl
  | cons r t ih =>
      intro st
      rw [List.foldl_cons, ih]
      rfl

/-- The trailing block applies the page redactions exactly once per page,
whatever the detectors found. -/
lemma trailingProcessPage_applyCount (ops : PageOps) (st : PageState) :
    (trailingProcessPage ops st).applyCount = st.applyCount + 1 := by
  rw [trailingProcessPage, applyRedactions, foldl_addAnnot_applyCount,
    foldl_addAnnot_applyCount]

lemma getLast?_append_ne {l r : List Char} (h : r ≠ []) :
    (l ++ r).getLast? = r.getLast? := by
  rw [List.getLast?_append, List.getLast?_eq_getLast r h]
  rfl

lemma wordOpt_getLast_chain {p core g : List Char} (hne : g ≠ [])
    (hd : ∀ c ∈ g, CC.eval .digit c = true)
    (hcore : core.getLast? = g.getLast?) :
    wordOpt (p ++ core).getLast? = true := by
  have hcne : core ≠ [] := by
    intro h
    rw [h, List.getLast?_eq_getLast g hne] at hcore
    simp at hcore
  rw [getLast?_append_ne hcne, hcore, List.getLast?_eq_getLast g hne]
  simpa [wordOpt] using isWordChar_of_digit (hd _ (List.getLast_mem hne))

example : matchesText "123.456.789-01".toList = true := by decide
example : matchesText "12345678901".toList = true := by decide
example : matchesText "1234567890".toList = false := by decide
example : matchesText "123456789012345".toList = true := by decide
example : matchesText "x12345678901x".toList = false := by decide
example : matchesText "CNPJ: 12.345.678/0001-95".toList = true := by decide
example : matchesText "".toList = false := by decide
example : findIterTexts "11111111111 11111111111".toList
    = ["11111111111".toList, "11111111111".toList] := by decide

/-! ## Claim theorems -/

/-- Claim C1, counterexample: `123456789012345` is a 15-digit digit run, yet
the Pattern Library's match operation returns `true` on it, not `false` as
the claim states: the 14-digit CNPJ shape carries no boundary anchoring and
matches the first 14 digits of the run. -/
theorem c1_counterexample :
    run15.length = 15 ∧ (∀ c ∈ run15, CC.eval .digit c = true)
      ∧ matchesText run15 = true := by
  refine ⟨by decide, by decide, by decide⟩

/-- Claim C1, amended: inside a 15-digit run the anchored 11-digit CPF shape
indeed never matches (on the bare run the whole pattern search for
`cpf_regex` fails), but the unanchored 14-digit CNPJ shape matches the first
14 digits, so `matches(text)` returns `true` for every text containing a
15-digit run. -/
theorem c1_cnpj_matches_inside_long_run (ds p q : List Char)
    (h15 : ds.length = 15) (hd : ∀ c ∈ ds, CC.eval .digit c = true) :
    searchRE cpf_regex ds = none ∧ matchesText (p ++ (ds ++ q)) = true := by
  constructor
  · rw [searchRE_digit_run hd, h15]
    decide
  · have h14 : (ds.take 14).length = 14 := by
      rw [List.length_take]
      omega
    have hd14 : ∀ c ∈ ds.take 14, CC.eval .digit c = true :=
      fun c hc => hd c (List.mem_of_mem_take hc)
    have hm : MatchesRE combined_pattern p (ds.take 14) (ds.drop 14 ++ q) :=
      MatchesRE.altR
        (mre_catL MatchesRE.optN (MatchesRE.altR (MatchesRE.rep h14 hd14)))
    have hres := matchesText_of_matchesRE hm
    rw [← List.append_assoc (ds.take 14) (ds.drop 14) q,
      List.take_append_drop] at hres
    exact hres

/-- Claim C1, amended, witness at the concrete 15-digit run. -/
theorem c1_cnpj_matches_inside_long_run_witness :
    searchRE cpf_regex run15 = none ∧ matchesText ([] ++ (run15 ++ [])) = true :=
  c1_cnpj_matches_inside_long_run run15 [] [] (by decide) (by decide)

/-- Claim C2: executed as a script, the module-level code after the
`__main__` guard runs unconditionally once `main()` has finished and saved:
the script performs exactly two saves, both to the same output path, the
second (final) one being the trailing pass run on the re-opened input
document; that trailing pass never consults the rasterization/OCR oracles
(no OCR detection), and it invokes the page redaction commit exactly once on
every page, rectangles or not. -/
theorem c2_trailing_pass_overwrites (doc : List (PageOps × PageState))
    (out1 : List PageState) (h : mainPass doc = .ok out1) :
    script doc = .ok [(outputPath, out1), (outputPath, trailingPass doc)]
    ∧ (∀ (ops : PageOps) (st : PageState) (r : PyResult Unit)
          (o : PyResult (List OcrFrag)),
        trailingProcessPage (withOcrOracle ops r o) st = trailingProcessPage ops st)
    ∧ (∀ i : Nat, ((trailingPass doc)[i]?).map PageState.applyCount
        = (doc[i]?).map fun pg => pg.2.applyCount + 1) := by
  refine ⟨?_, ?_, ?_⟩
  · simp only [script, h]
  · intro ops st r o
    rfl
  · intro i
    rw [trailingPass, List.getElem?_map]
    cases doc[i]? with
    | none => rfl
    | some pg => simp [trailingProcessPage_applyCount]

/-- Claim C2, witness on the concrete one-page document. -/
theorem c2_trailing_pass_overwrites_witness :
    script quietDoc
      = .ok [(outputPath, [freshPage]), (outputPath, trailingPass quietDoc)]
    ∧ ((trailingPass quietDoc)[0]?).map PageState.applyCount = some 1 := by
  have h := c2_trailing_pass_overwrites quietDoc [freshPage] (by decide)
  refine ⟨h.1, ?_⟩
  rw [h.2.2 0]
  decide

/-- Claim C3: error-handling asymmetry.  A failing native search (primary
and textpageback-off both raising) yields `[]`; a failing text extraction or
failing literal searches in the fallback detector yield `[]`; but a failing
rasterization or OCR call makes `ocr_rects_for_page` raise, and that
exception propagates through the per-page processing and aborts the whole
page loop. -/
theorem c3_detector_failure_asymmetry :
    (∀ ops : PageOps,
      search_text_principal
        { ops with primarySearch := .exc, getTextpage := .exc } = [])
    ∧ (∀ ops : PageOps,
        fallback_literal_rects { ops with getTextRes := .exc } = [])
    ∧ (∀ ops : PageOps,
        fallback_literal_rects { ops with literalSearch := fun _ => .exc } = [])
    ∧ (∀ (ops : PageOps) (dpi : ℚ),
        ocr_rects_for_page { ops with raster := .exc } dpi = .exc)
    ∧ (∀ (ops : PageOps) (dpi : ℚ),
        ocr_rects_for_page { ops with raster := .ok (), ocr := .exc } dpi = .exc)
    ∧ (∀ (ops : PageOps) (st : PageState) (pre post : List (PageOps × PageState)),
        mainPass (pre ++ ({ ops with raster := .exc }, st) :: post) = .exc) := by
  refine ⟨?_, ?_, ?_, ?_, ?_, ?_⟩
  · intro ops
    cases h : ops.hasGetTextpage <;> simp [search_text_principal, h]
  · intro ops
    simp [fallback_literal_rects, pageTextOf]
  · intro ops
    simp [fallback_literal_rects, pageTextOf, foldl_id]
  · intro ops dpi
    rfl
  · intro ops dpi
    rfl
  · intro ops st pre post
    induction pre with
    | nil =>
        simp [mainPass, processPageMain, ocr_rects_for_page]
    | cons hd tl ih =>
        obtain ⟨o, s⟩ := hd
        rw [List.cons_append]
        simp only [mainPass]
        cases hp : processPageMain o s with
        | exc => rfl
        | ok st' => rw [ih]

/-- Claim C4: the Reconciler's deduplication of the concatenated detector
results (native, then fallback, then OCR) keeps exactly the first occurrence
of each rounded-coordinate key in order of first appearance: the result is a
sublist of the input, its restriction to any key equals the first element of
that key's class, and a key survives iff it occurs in the input (so two
rectangles with different keys are both represented). -/
theorem c4_dedup_first_occurrence (a b c : List PRect) :
    (dedupRects (a ++ b ++ c)).Sublist (a ++ b ++ c)
    ∧ (∀ k, (dedupRects (a ++ b ++ c)).filter (fun r => decide (roundKey r = k))
        = ((a ++ b ++ c).filter (fun r => decide (roundKey r = k))).take 1)
    ∧ (∀ k, k ∈ (dedupRects (a ++ b ++ c)).map roundKey
        ↔ k ∈ (a ++ b ++ c).map roundKey) := by
  refine ⟨dedupLoop_sublist _ _, fun k => ?_, fun k => ?_⟩
  · rw [dedupRects, dedupLoop_filter]
    simp
  · rw [mem_map_roundKey_iff_filter, mem_map_roundKey_iff_filter,
      dedupRects, dedupLoop_filter]
    simp [List.take_eq_nil_iff]

/-- Claim C5 (code bug): `redact_rects` — the Reconciler commit used by
`main()` — indeed never commits on an empty rectangle list and leaves the
page state unchanged; but the trailing module-level block invokes
`page.apply_redactions()` even on a page with no detections at all, as
evaluated here on a page whose text is `hello`. -/
theorem c5_trailing_commit_on_empty :
    (∀ st : PageState, redact_rects st [] = st)
    ∧ (trailingProcessPage quietOps freshPage).annots = []
    ∧ (trailingProcessPage quietOps freshPage).applyCount = 1 := by
  refine ⟨fun st => rfl, by decide, by decide⟩

/-- Claim C8: the Raster OCR detector uses `zoom = dpi / 72` and maps pixel
rectangles back with the inverse scale `1 / zoom`: on successful
rasterization and OCR it returns exactly the matched bounding boxes scaled
by `1 / (dpi / 72)`; scaling by `zoom` and then by `1 / zoom` is the
identity; and multiplying by `1 / zoom` is multiplying by `72 / dpi`. -/
theorem c8_ocr_inverse_transform (dpi : ℚ) (h : dpi ≠ 0) :
    (∀ (ops : PageOps) (frags : List OcrFrag),
      ocr_rects_for_page { ops with raster := .ok (), ocr := .ok frags } dpi
        = .ok ((boxes_to_rects_if_match frags).map (scaleRect (1 / (dpi / 72)))))
    ∧ (∀ r : PRect, scaleRect (1 / (dpi / 72)) (scaleRect (dpi / 72) r) = r)
    ∧ (∀ r : PRect, scaleRect (1 / (dpi / 72)) r
        = ⟨72 / dpi * r.x0, 72 / dpi * r.y0, 72 / dpi * r.x1, 72 / dpi * r.y1⟩) := by
  have hz : (dpi / 72 : ℚ) ≠ 0 := by
    intro h0
    apply h
    field_simp at h0
    exact h0
  refine ⟨fun ops frags => rfl, fun r => ?_, fun r => ?_⟩
  · obtain ⟨x0, y0, x1, y1⟩ := r
    simp only [scaleRect, PRect.mk.injEq, one_div]
    refine ⟨?_, ?_, ?_, ?_⟩ <;> rw [inv_mul_cancel_left₀ hz]
  · rw [scaleRect, one_div_div]

/-- Claim C8, witness at the reference resolution `dpi = 200`. -/
theorem c8_ocr_inverse_transform_witness :
    scaleRect (1 / ((200 : ℚ) / 72)) (scaleRect ((200 : ℚ) / 72) ⟨1, 2, 3, 4⟩)
      = ⟨1, 2, 3, 4⟩
    ∧ scaleRect (1 / ((200 : ℚ) / 72)) ⟨1, 2, 3, 4⟩
      = ⟨72 / 200 * 1, 72 / 200 * 2, 72 / 200 * 3, 72 / 200 * 4⟩ := by
  have h := c8_ocr_inverse_transform 200 (by norm_num)
  exact ⟨h.2.1 ⟨1, 2, 3, 4⟩, h.2.2 ⟨1, 2, 3, 4⟩⟩

/-- Claim C9, counterexample: on a page whose text holds the same CPF-shaped
number twice, the fallback loop passes the same substring to the literal
page search twice — one search per match occurrence, not one per distinct
matched substring as the claim states. -/
theorem c9_counterexample :
    fallbackSearchCalls twoCpfOps = [onesRun, onesRun]
    ∧ (fallbackSearchCalls twoCpfOps).dedup = [onesRun] := by
  refine ⟨by decide, by decide⟩

/-- Claim C9, amended: the Fallback Literal Detector extracts the page text
(an extraction failure yields `[]`), performs one literal search per
`re.finditer` match occurrence whose stripped text is non-empty (duplicate
substrings are searched repeatedly), and collects, in order, the rectangles
of the successful searches, a failing search contributing nothing — so it
always returns a (possibly empty) rectangle list. -/
theorem c9_fallback_per_occurrence :
    (∀ ops : PageOps, fallback_literal_rects { ops with getTextRes := .exc } = [])
    ∧ (∀ ops : PageOps, fallbackSearchCalls ops
        = ((findIterTexts (pageTextOf ops)).map stripChars).filter fun m => !m.isEmpty)
    ∧ (∀ ops : PageOps, fallback_literal_rects ops
        = (fallbackSearchCalls ops).flatMap fun m =>
            match ops.literalSearch m with
            | .ok r => r.getD []
            | .exc => []) := by
  refine ⟨?_, ?_, ?_⟩
  · intro ops
    simp [fallback_literal_rects, pageTextOf]
  · intro ops
    simp only [fallbackSearchCalls]
    by_cases h : (pageTextOf ops).isEmpty
    · rw [if_pos h, List.isEmpty_iff.mp h]
      rfl
    · rw [if_neg h, foldl_calls_eq]
      simp
  · intro ops
    simp only [fallback_literal_rects, fallbackSearchCalls]
    by_cases h : (pageTextOf ops).isEmpty
    · rw [if_pos h, if_pos h]
      rfl
    · rw [if_neg h, if_neg h, foldl_rects_eq, foldl_calls_eq]
      simp

/-- Claim C6, counterexample: `x12345678901x` contains an 11-digit sequence,
yet the match operation returns `false`, not `true` as the claim states: the
CPF shape's word-boundary anchoring rejects a digit run flanked by word
characters. -/
theorem c6_counterexample :
    "x12345678901x".toList = ['x'] ++ (elevenRun ++ ['x'])
    ∧ elevenRun.length = 11 ∧ (∀ c ∈ elevenRun, CC.eval .digit c = true)
    ∧ matchesText "x12345678901x".toList = false := by
  refine ⟨by decide, by decide, by decide, by decide⟩

/-- Claim C6, amended: for ASCII text in which the 11-digit sequence —
contiguous or grouped 3-3-3-2 with `.`, `-` or space separators — occurs
delimited by word boundaries (preceded and followed by a non-word character
or the text edge), the match operation returns true; and for a text that is
a bare 10- or 12-digit run it returns false. -/
theorem c6_cpf_matching :
    (∀ p ds q : List Char, ds.length = 11 →
      (∀ c ∈ ds, CC.eval .digit c = true) →
      asciiOnly p → asciiOnly q →
      wordOpt p.getLast? = false → wordOpt q.head? = false →
      matchesText (p ++ (ds ++ q)) = true)
    ∧ (∀ p q g1 g2 g3 g4 : List Char, ∀ s1 s2 s3 : Char,
      g1.length = 3 → g2.length = 3 → g3.length = 3 → g4.length = 2 →
      (∀ c ∈ g1, CC.eval .digit c = true) → (∀ c ∈ g2, CC.eval .digit c = true) →
      (∀ c ∈ g3, CC.eval .digit c = true) → (∀ c ∈ g4, CC.eval .digit c = true) →
      (s1 = '.' ∨ s1 = '-' ∨ s1 = ' ') → (s2 = '.' ∨ s2 = '-' ∨ s2 = ' ') →
      (s3 = '.' ∨ s3 = '-' ∨ s3 = ' ') →
      asciiOnly p → asciiOnly q →
      wordOpt p.getLast? = false → wordOpt q.head? = false →
      matchesText
        (p ++ ((g1 ++ ([s1] ++ (g2 ++ ([s2] ++ (g3 ++ ([s3] ++ g4)))))) ++ q))
        = true)
    ∧ (∀ ds : List Char, (∀ c ∈ ds, CC.eval .digit c = true) →
      ds.length = 10 ∨ ds.length = 12 → matchesText ds = false) := by
  refine ⟨?_, ?_, ?_⟩
  · intro p ds q hlen hd hap haq hp hq
    have hne : ds ≠ [] := List.length_pos.mp (by omega)
    have hwbL : MatchesRE .wb p [] (ds ++ q) := by
      apply MatchesRE.wb
      rw [hp, wordOpt_head_digits hne hd]
      simp
    have hwbR : MatchesRE .wb (p ++ ds) [] q := by
      apply MatchesRE.wb
      rw [wordOpt_getLast_digits hne hd, hq]
      simp
    have hfull : MatchesRE cpf_regex p ds q :=
      mre_catL hwbL (mre_catR (MatchesRE.altR (MatchesRE.rep hlen hd)) hwbR)
    exact matchesText_of_matchesRE (MatchesRE.altL hfull)
  · intro p q g1 g2 g3 g4 s1 s2 s3 h1 h2 h3 h4 hd1 hd2 hd3 hd4 hs1 hs2 hs3
      hap haq hp hq
    have e1 : CC.eval .sepA s1 = true := by rcases hs1 with rfl | rfl | rfl <;> decide
    have e2 : CC.eval .sepA s2 = true := by rcases hs2 with rfl | rfl | rfl <;> decide
    have e3 : CC.eval .sepA s3 = true := by rcases hs3 with rfl | rfl | rfl <;> decide
    have hne1 : g1 ≠ [] := List.length_pos.mp (by omega)
    have hne4 : g4 ≠ [] := List.length_pos.mp (by omega)
    have hwbL : MatchesRE .wb p []
        ((g1 ++ ([s1] ++ (g2 ++ ([s2] ++ (g3 ++ ([s3] ++ g4)))))) ++ q) := by
      apply MatchesRE.wb
      rw [hp, List.append_assoc, wordOpt_head_digits hne1 hd1]
      simp
    have hcore : (g1 ++ ([s1] ++ (g2 ++ ([s2] ++ (g3 ++ ([s3] ++ g4)))))).getLast?
        = g4.getLast? := by
      rw [getLast?_append_ne (by simp), getLast?_append_ne (by simp),
        getLast?_append_ne (by simp), getLast?_append_ne (by simp),
        getLast?_append_ne (by simp), getLast?_append_ne hne4]
    have hwbR : MatchesRE .wb
        (p ++ (g1 ++ ([s1] ++ (g2 ++ ([s2] ++ (g3 ++ ([s3] ++ g4))))))) [] q := by
      apply MatchesRE.wb
      rw [wordOpt_getLast_chain hne4 hd4 hcore, hq]
      simp
    have hfull : MatchesRE cpf_regex p
        (g1 ++ ([s1] ++ (g2 ++ ([s2] ++ (g3 ++ ([s3] ++ g4)))))) q := by
      refine mre_catL hwbL (mre_catR ?_ hwbR)
      exact MatchesRE.altL
        (MatchesRE.cat (MatchesRE.rep h1 hd1)
          (MatchesRE.cat (MatchesRE.optS (MatchesRE.cls e1))
            (MatchesRE.cat (MatchesRE.rep h2 hd2)
              (MatchesRE.cat (MatchesRE.optS (MatchesRE.cls e2))
                (MatchesRE.cat (MatchesRE.rep h3 hd3)
                  (MatchesRE.cat (MatchesRE.optS (MatchesRE.cls e3))
                    (MatchesRE.rep h4 hd4)))))))
    exact matchesText_of_matchesRE (MatchesRE.altL hfull)
  · intro ds hd hlen
    rw [matchesText_digit_run hd]
    rcases hlen with h | h <;> rw [h] <;> decide

/-- Claim C6, amended, witness: a delimited contiguous run, a delimited
grouped form, and a bare 10-digit run. -/
theorem c6_cpf_matching_witness :
    matchesText (['('] ++ (elevenRun ++ [')'])) = true
    ∧ matchesText
        ([] ++ (("123".toList ++ (['.'] ++ ("456".toList ++ (['.'] ++
          ("789".toList ++ (['-'] ++ "01".toList)))))) ++ [])) = true
    ∧ matchesText "1234567890".toList = false := by
  obtain ⟨hA, hB, hC⟩ := c6_cpf_matching
  refine ⟨hA ['('] elevenRun [')'] (by decide) (by decide) (by decide)
    (by decide) (by decide) (by decide), ?_,
    hC "1234567890".toList (by decide) (Or.inl (by decide))⟩
  exact hB [] [] "123".toList "456".toList "789".toList "01".toList '.' '.' '-'
    (by decide) (by decide) (by decide) (by decide) (by decide) (by decide)
    (by decide) (by decide) (Or.inl rfl) (Or.inl rfl) (Or.inr (Or.inl rfl))
    (by decide) (by decide) (by decide) (by decide)

/-- Claim C7: any text containing a 14-digit sequence — contiguous or
grouped 2-3-3-4-2 with the source's separator classes, an optional `/`
before the 4th group — makes the match operation return true, whatever
surrounds it (the unanchored CNPJ shape needs no boundaries; texts carrying
the optional case-insensitive `CNPJ` tag are instances of the surrounding
context `p`). -/
theorem c7_cnpj_matching (p q g1 g2 g3 g4 g5 s1 s2 s3 s4 : List Char)
    (h1 : g1.length = 2) (h2 : g2.length = 3) (h3 : g3.length = 3)
    (h4 : g4.length = 4) (h5 : g5.length = 2)
    (hd1 : ∀ c ∈ g1, CC.eval .digit c = true)
    (hd2 : ∀ c ∈ g2, CC.eval .digit c = true)
    (hd3 : ∀ c ∈ g3, CC.eval .digit c = true)
    (hd4 : ∀ c ∈ g4, CC.eval .digit c = true)
    (hd5 : ∀ c ∈ g5, CC.eval .digit c = true)
    (hs1 : sepOptP .sepA s1) (hs2 : sepOptP .sepA s2)
    (hs3 : sepOptP .sepB s3) (hs4 : sepOptP .sepC s4) :
    matchesText
      (p ++ ((g1 ++ (s1 ++ (g2 ++ (s2 ++ (g3 ++ (s3 ++ (g4 ++ (s4 ++ g5)))))))) ++ q))
      = true := by
  have hfull : MatchesRE cnpj_regex p
      (g1 ++ (s1 ++ (g2 ++ (s2 ++ (g3 ++ (s3 ++ (g4 ++ (s4 ++ g5)))))))) q := by
    refine mre_catL MatchesRE.optN ?_
    exact MatchesRE.altL
      (MatchesRE.cat (MatchesRE.rep h1 hd1)
        (MatchesRE.cat (mre_optCls hs1)
          (MatchesRE.cat (MatchesRE.rep h2 hd2)
            (MatchesRE.cat (mre_optCls hs2)
              (MatchesRE.cat (MatchesRE.rep h3 hd3)
                (MatchesRE.cat (mre_optCls hs3)
                  (MatchesRE.cat (MatchesRE.rep h4 hd4)
                    (MatchesRE.cat (mre_optCls hs4)
                      (MatchesRE.rep h5 hd5)))))))))
  exact matchesText_of_matchesRE (MatchesRE.altR hfull)

/-- Claim C7, witness: the tagged, fully separated form
`CNPJ: 12.345.678/0001-95` (the tag and its colon and space sit in the
surrounding context). -/
theorem c7_cnpj_matching_witness :
    matchesText
      ("CNPJ: ".toList ++ (("12".toList ++ (['.'] ++ ("345".toList ++ (['.'] ++
        ("678".toList ++ (['/'] ++ ("0001".toList ++ (['-'] ++ "95".toList))))))))
        ++ [])) = true :=
  c7_cnpj_matching "CNPJ: ".toList [] "12".toList "345".toList "678".toList
    "0001".toList "95".toList ['.'] ['.'] ['/'] ['-']
    (by decide) (by decide) (by decide) (by decide) (by decide)
    (by decide) (by decide) (by decide) (by decide) (by decide)
    (Or.inr ⟨'.', rfl, by decide⟩) (Or.inr ⟨'.', rfl, by decide⟩)
    (Or.inr ⟨'/', rfl, by decide⟩) (Or.inr ⟨'-', rfl, by decide⟩)

/-- Claim C10 (code bug): idempotence fails on the code.  On a scanned page
whose identifier exists only as pixels, `main`'s three-detector redaction
would remove it (no detector fires afterwards), but the output the script
finally persists is the trailing two-detector pass's, which leaves the page
unchanged — so a second run still detects the identifier via OCR. -/
theorem c10_second_run_detects :
    symOcrDetects scannedPage = true
    ∧ symScriptOutput [scannedPage] = [scannedPage]
    ∧ symDetections ((symScriptOutput [scannedPage]).headD ⟨[], []⟩) = true
    ∧ symDetections (symMainRedact scannedPage) = false := by
  refine ⟨by decide, by decide, by decide, by decide⟩

end AnonPdf
